import Mathlib

/-!
Verification of `standard_code_models/extend_model.py` (feedzai/feedzai-openml-java).

A model file is a list of lines; every line keeps its original terminator.
We embed lines as `List Char` (Python `str`), so a blank line is `['\n']`
and Python `len` on a line is `List.length`.
-/

set_option autoImplicit false

namespace ExtendModel

/-- A line of the model file, with its terminator. -/
abbrev Line := List Char

/-- A block ("paragraph") of the model file: a list of lines. -/
abbrev Block := List Line

/-- One step of the parsing loop of `ModelBlocks.parse_file_blocks`:
state is `(blocks, block, at_block)` as in the Python loop body. -/
def parseStep (s : List Block × Block × Bool) (line : Line) : List Block × Block × Bool :=
  if line = ['\n'] then
    (s.1, s.2.1 ++ [line], false)
  else if s.2.2 then
    (s.1, s.2.1 ++ [line], true)
  else if s.2.1.isEmpty then
    (s.1, [line], true)
  else
    (s.1 ++ [s.2.1], [line], true)

/-- Embeds `ModelBlocks.parse_file_blocks`: fold the loop body over the file's
lines starting from `at_block = False`, empty accumulator and no blocks, then
flush the last accumulator if it is non-empty. -/
def parse_file_blocks (lines : List Line) : List Block :=
  match lines.foldl parseStep ([], [], false) with
  | (blocks, block, _) => if block.isEmpty then blocks else blocks ++ [block]

/-- Embeds `ModelBlocks.is_tree_block`: non-empty and first line starts with
`Tree=`. -/
def is_tree_block (block : Block) : Bool :=
  match block with
  | [] => false
  | l :: _ => ("Tree=".data).isPrefixOf l

/-- Embeds `ModelBlocks.tree_size`: sum of the lengths of the block's lines. -/
def tree_size (block : Block) : Nat :=
  (block.map List.length).sum

/-- The test of the loop in `ModelBlocks.find_end_of_trees_block`: a block of
exactly two lines whose first line is `end of trees` plus the terminator. -/
def isEndSentinel (block : Block) : Bool :=
  block.length = 2 && block.head? = some ("end of trees\n".data)

/-- Embeds `ModelBlocks.find_end_of_trees_block`: index of the first sentinel
block, or the `Corrupt file` error when none exists. -/
def find_end_of_trees_block : List Block → Except String Nat
  | [] => .error "Corrupt file: Coudln't find end of trees block!"
  | block :: rest =>
    if isEndSentinel block then .ok 0
    else (find_end_of_trees_block rest).map (· + 1)

/-- Embeds the state of a `ModelBlocks` instance after `__init__`. -/
structure ModelBlocks where
  header_block : Block
  tree_blocks : List Block
  end_blocks : List Block
  N_ORIGINAL_TREES : Nat
deriving DecidableEq

/-- Fuel-driven decimal rendering, so that the kernel can evaluate it; the
fuel is always sufficient when called through `natDecimal`. -/
def natDecimalFuel : Nat → Nat → List Char
  | 0, _ => []
  | fuel + 1, n =>
    if n < 10 then [Nat.digitChar n]
    else natDecimalFuel fuel (n / 10) ++ [Nat.digitChar (n % 10)]

/-- Model of Python `str` on a non-negative integer: canonical decimal
numeral, most significant digit first. -/
def natDecimal (n : Nat) : List Char :=
  natDecimalFuel (n + 1) n

/-- Model of Python `" ".join`: concatenate the pieces with a single space
between consecutive pieces. -/
def joinSpaceSep : List (List Char) → List Char
  | [] => []
  | [w] => w
  | w :: ws => w ++ ' ' :: joinSpaceSep ws

/-- Embeds `ModelBlocks.gen_tree_sizes_line`: the literal `tree_sizes=`
followed by the space-joined decimal sizes of the tree blocks and the
terminator. -/
def gen_tree_sizes_line (m : ModelBlocks) : Line :=
  "tree_sizes=".data
    ++ joinSpaceSep (m.tree_blocks.map (fun b => natDecimal (tree_size b)))
    ++ ['\n']

/-- Embeds `ModelBlocks.yield_model_lines`: header lines with every
`tree_sizes=` line replaced by the regenerated one, then all lines of the
tree blocks followed by the end blocks. -/
def yield_model_lines (m : ModelBlocks) : List Line :=
  m.header_block.map (fun line =>
    if ("tree_sizes=".data).isPrefixOf line then gen_tree_sizes_line m else line)
  ++ (m.tree_blocks ++ m.end_blocks).flatten

/-- The state assembled by `ModelBlocks.__init__` from the parsed raw
blocks, the header block and the index of the end-of-trees block. -/
def initModel (raw_blocks : List Block) (header_block : Block) (k : Nat) : ModelBlocks :=
  { header_block := header_block
    tree_blocks := raw_blocks.filter is_tree_block
    end_blocks := raw_blocks.drop k
    N_ORIGINAL_TREES := (raw_blocks.filter is_tree_block).length }

/-- Embeds `ModelBlocks.__init__` together with `check_model_blocks`:
parse the file, take the first block as header (IndexError on an empty
parse), filter the tree blocks, locate the end-of-trees block, then check
that serialization reproduces the input's line count. -/
def mkModelBlocks (lines : List Line) : Except String ModelBlocks :=
  match parse_file_blocks lines with
  | [] => .error "IndexError: list index out of range"
  | header_block :: rest =>
    match find_end_of_trees_block (header_block :: rest) with
    | .error e => .error e
    | .ok k =>
      if lines.length = (yield_model_lines (initModel (header_block :: rest) header_block k)).length
      then .ok (initModel (header_block :: rest) header_block k)
      else .error "Bug detected: Output self-consistency checks failed!"

/-- Model of Python `random.randrange(lo, hi)`: any value of `[lo, hi)`
may be produced, driven here by an entropy draw `g`; an empty range raises
`ValueError`. -/
def randrange (lo hi g : Nat) : Except String Nat :=
  if lo < hi then .ok (lo + g % (hi - lo))
  else .error "ValueError: empty range for randrange()"

/-- Embeds `ModelBlocks.add_sampled_tree`: sample an index in
`[1, N_ORIGINAL_TREES)`, copy that tree block, overwrite its first line with
`Tree=<current tree count>` and append it; returns the sampled index. -/
def add_sampled_tree (m : ModelBlocks) (g : Nat) : Except String (ModelBlocks × Nat) :=
  match randrange 1 m.N_ORIGINAL_TREES g with
  | .error e => .error e
  | .ok sample_tree_idx =>
    match m.tree_blocks[sample_tree_idx]? with
    | none => .error "IndexError: list index out of range"
    | some sampled =>
      match sampled with
      | [] => .error "IndexError: list assignment index out of range"
      | _ :: sampled_tail =>
        let N_trees := m.tree_blocks.length
        let new_tree := ("Tree=".data ++ natDecimal N_trees ++ ['\n']) :: sampled_tail
        .ok ({ m with tree_blocks := m.tree_blocks ++ [new_tree] }, sample_tree_idx)

/-- Embeds `ModelBlocks.add_sampled_trees`: run `add_sampled_tree` once per
entropy draw, collecting the sampled indices in call order. -/
def add_sampled_trees : ModelBlocks → List Nat → Except String (ModelBlocks × List Nat)
  | m, [] => .ok (m, [])
  | m, g :: gs =>
    match add_sampled_tree m g with
    | .error e => .error e
    | .ok (m1, idx) =>
      match add_sampled_trees m1 gs with
      | .error e => .error e
      | .ok (m2, idxs) => .ok (m2, idx :: idxs)

/-- Embeds `grow_model` up to file IO: load the model, add the sampled
trees, and return the lines that `write_to` would write. -/
def grow_model (lines : List Line) (gs : List Nat) : Except String (List Line) :=
  match mkModelBlocks lines with
  | .error e => .error e
  | .ok m =>
    match add_sampled_trees m gs with
    | .error e => .error e
    | .ok (m2, _) => .ok (yield_model_lines m2)

/-- Decoder giving the meaning of a `tree_sizes=` header line: the list of
decimal sizes it carries. Splits the payload on single spaces exactly as the
format's space-separated-values convention prescribes. -/
def splitSpaces : List Char → List (List Char)
  | [] => [[]]
  | c :: cs =>
    match splitSpaces cs with
    | [] => [[]]
    | w :: ws => if c = ' ' then [] :: w :: ws else (c :: w) :: ws

/-- Parse a non-empty all-digit character list as a decimal number. -/
def parseDecimal? (cs : List Char) : Option Nat :=
  if cs ≠ [] ∧ cs.all Char.isDigit then
    some (cs.foldl (fun a c => 10 * a + (c.toNat - 48)) 0)
  else none

/-- Parse every space-separated entry as a decimal number; `none` when any
entry fails to parse. -/
def parseDecimals? : List (List Char) → Option (List Nat)
  | [] => some []
  | w :: ws =>
    match parseDecimal? w, parseDecimals? ws with
    | some n, some ns => some (n :: ns)
    | _, _ => none

/-- Semantics of a `tree_sizes=` line: the sequence of tree sizes it denotes,
or `none` when it is not a well-formed `tree_sizes=` line. -/
def decodeTreeSizesLine? (line : Line) : Option (List Nat) :=
  if ("tree_sizes=".data).isPrefixOf line ∧ line.getLast? = some '\n' then
    if (line.drop ("tree_sizes=".data).length).dropLast = [] then some []
    else parseDecimals? (splitSpaces ((line.drop ("tree_sizes=".data).length).dropLast))
  else none

/-- Structural validity of a parsed model file, used by the round-trip
theorems: the header is neither a tree block nor the sentinel, every block
between header and trailer is a tree block, the trailer starts with the
sentinel block, and no trailer block is a tree block. -/
def validStructure (hdr : Block) (trees ends : List Block) : Bool :=
  !is_tree_block hdr && !isEndSentinel hdr
    && trees.all is_tree_block
    && (match ends with | [] => false | e :: _ => isEndSentinel e)
    && ends.all (fun b => !is_tree_block b)

/-- A small valid model file with two trees, used as concrete input. -/
def exLines : List Line :=
  ["tree_sizes=10 11\n".data, "\n".data,
   "Tree=0\n".data, "a\n".data, "\n".data,
   "Tree=1\n".data, "bc\n".data, "\n".data,
   "end of trees\n".data, "\n".data]

def exHeader : Block := ["tree_sizes=10 11\n".data, "\n".data]

def exTrees : List Block :=
  [["Tree=0\n".data, "a\n".data, "\n".data],
   ["Tree=1\n".data, "bc\n".data, "\n".data]]

def exEnds : List Block := [["end of trees\n".data, "\n".data]]

/-- The model loaded from `exLines`. -/
def exModel : ModelBlocks := ⟨exHeader, exTrees, exEnds, 2⟩

/-- The model after one duplication on `exModel` (tree 1 is sampled). -/
def exModel2 : ModelBlocks :=
  ⟨exHeader, exTrees ++ [["Tree=2\n".data, "bc\n".data, "\n".data]], exEnds, 2⟩

/-- A model whose header carries two `tree_sizes=` lines. -/
def dupModel : ModelBlocks :=
  ⟨["tree_sizes=1\n".data, "tree_sizes=2\n".data],
   [["Tree=0\n".data, "\n".data]],
   [["end of trees\n".data, "\n".data]], 1⟩

/-- A model file that is non-empty and contains the sentinel block, but
whose `tree_sizes=` value does not list its tree block sizes. -/
def cexLines : List Line :=
  ["tree_sizes=7\n".data, "\n".data, "end of trees\n".data, "\n".data]

/-- The model loaded from `cexLines`. -/
def cexModel : ModelBlocks :=
  ⟨["tree_sizes=7\n".data, "\n".data], [],
   [["end of trees\n".data, "\n".data]], 0⟩

/-! ### Lemmas about decimal numerals and the tree-sizes decoder -/

theorem natDecimalFuel_irrel (n : Nat) :
    ∀ f1 f2 : Nat, n < f1 → n < f2 → natDecimalFuel f1 n = natDecimalFuel f2 n := by
  induction n using Nat.strong_induction_on with
  | _ n ih =>
    intro f1 f2 h1 h2
    rcases f1 with _ | g1
    · omega
    rcases f2 with _ | g2
    · omega
    by_cases h10 : n < 10
    · show (if n < 10 then _ else _) = (if n < 10 then _ else _)
      rw [if_pos h10, if_pos h10]
    · have hd : n / 10 < n := Nat.div_lt_self (by omega) (by omega)
      show (if n < 10 then _ else _) = (if n < 10 then _ else _)
      rw [if_neg h10, if_neg h10, ih (n / 10) hd g1 g2 (by omega) (by omega)]

theorem natDecimal_lt {n : Nat} (h : n < 10) : natDecimal n = [Nat.digitChar n] := by
  show (if n < 10 then _ else _) = _
  rw [if_pos h]

theorem natDecimal_ge {n : Nat} (h : ¬ n < 10) :
    natDecimal n = natDecimal (n / 10) ++ [Nat.digitChar (n % 10)] := by
  have hd : n / 10 < n := Nat.div_lt_self (by omega) (by omega)
  show (if n < 10 then _ else natDecimalFuel n (n / 10) ++ [Nat.digitChar (n % 10)]) = _
  rw [if_neg h]
  rw [natDecimalFuel_irrel (n / 10) n (n / 10 + 1) (by omega) (by omega)]
  rfl

theorem digitChar_isDigit {n : Nat} (h : n < 10) : (Nat.digitChar n).isDigit = true := by
  interval_cases n <;> decide

theorem digitChar_toNat {n : Nat} (h : n < 10) : (Nat.digitChar n).toNat - 48 = n := by
  interval_cases n <;> decide

theorem natDecimal_ne_nil (n : Nat) : natDecimal n ≠ [] := by
  by_cases h : n < 10
  · rw [natDecimal_lt h]; simp
  · rw [natDecimal_ge h]; simp

theorem natDecimal_all_digit (n : Nat) : ∀ c ∈ natDecimal n, c.isDigit = true := by
  induction n using Nat.strong_induction_on with
  | _ n ih =>
    by_cases h : n < 10
    · rw [natDecimal_lt h]
      intro c hc
      rcases List.mem_singleton.mp hc with rfl
      exact digitChar_isDigit h
    · rw [natDecimal_ge h]
      intro c hc
      rcases List.mem_append.mp hc with hc1 | hc1
      · exact ih (n / 10) (Nat.div_lt_self (by omega) (by omega)) c hc1
      · rcases List.mem_singleton.mp hc1 with rfl
        exact digitChar_isDigit (Nat.mod_lt n (by omega))

theorem natDecimal_no_space (n : Nat) : ' ' ∉ natDecimal n := by
  intro hmem
  exact absurd (natDecimal_all_digit n ' ' hmem) (by decide)

theorem natDecimal_foldl (n : Nat) : ∀ a : Nat,
    (natDecimal n).foldl (fun x c => 10 * x + (c.toNat - 48)) a
      = a * 10 ^ (natDecimal n).length + n := by
  induction n using Nat.strong_induction_on with
  | _ n ih =>
    intro a
    by_cases h : n < 10
    · rw [natDecimal_lt h]
      simp only [List.foldl_cons, List.foldl_nil, List.length_singleton, pow_one]
      rw [digitChar_toNat h]
      omega
    · rw [natDecimal_ge h]
      rw [List.foldl_append]
      rw [ih (n / 10) (Nat.div_lt_self (by omega) (by omega)) a]
      simp only [List.foldl_cons, List.foldl_nil, List.length_append, List.length_singleton]
      rw [digitChar_toNat (Nat.mod_lt n (by omega))]
      have key : 10 * (n / 10) + n % 10 = n := by omega
      calc 10 * (a * 10 ^ (natDecimal (n / 10)).length + n / 10) + n % 10
          = a * 10 ^ ((natDecimal (n / 10)).length + 1) + (10 * (n / 10) + n % 10) := by ring
        _ = a * 10 ^ ((natDecimal (n / 10)).length + 1) + n := by rw [key]

theorem parseDecimal?_natDecimal (n : Nat) : parseDecimal? (natDecimal n) = some n := by
  unfold parseDecimal?
  rw [if_pos ⟨natDecimal_ne_nil n, by rw [List.all_eq_true]; exact natDecimal_all_digit n⟩]
  rw [natDecimal_foldl n 0]
  simp

theorem splitSpaces_cons (c : Char) (cs : List Char) :
    splitSpaces (c :: cs)
      = match splitSpaces cs with
        | [] => [[]]
        | w :: ws => if c = ' ' then [] :: w :: ws else (c :: w) :: ws := rfl

theorem splitSpaces_ne_nil (cs : List Char) : splitSpaces cs ≠ [] := by
  induction cs with
  | nil => simp [splitSpaces]
  | cons c cs ih =>
    rw [splitSpaces_cons]
    rcases h : splitSpaces cs with _ | ⟨w, ws⟩
    · simp
    · by_cases hc : c = ' ' <;> simp [hc]

theorem splitSpaces_no_space (w : List Char) (h : ' ' ∉ w) : splitSpaces w = [w] := by
  induction w with
  | nil => rfl
  | cons c cs ih =>
    have hc : c ≠ ' ' := by intro hcc; exact h (by simp [hcc])
    have hcs : ' ' ∉ cs := fun hm => h (by simp [hm])
    rw [splitSpaces_cons, ih hcs]
    simp [hc]

theorem splitSpaces_word_space (w rest : List Char) (h : ' ' ∉ w) :
    splitSpaces (w ++ ' ' :: rest) = w :: splitSpaces rest := by
  induction w with
  | nil =>
    obtain ⟨r, rs, hs⟩ : ∃ r rs, splitSpaces rest = r :: rs := by
      rcases h' : splitSpaces rest with _ | ⟨r, rs⟩
      · exact absurd h' (splitSpaces_ne_nil rest)
      · exact ⟨r, rs, rfl⟩
    rw [List.nil_append, splitSpaces_cons, hs]
    simp
  | cons c cs ih =>
    have hc : c ≠ ' ' := fun hcc => h (by simp [hcc])
    have hcs : ' ' ∉ cs := fun hm => h (by simp [hm])
    rw [List.cons_append, splitSpaces_cons, ih hcs]
    simp [hc]

theorem splitSpaces_joinSpaceSep (ws : List (List Char)) (hne : ws ≠ [])
    (hsp : ∀ w ∈ ws, ' ' ∉ w) : splitSpaces (joinSpaceSep ws) = ws := by
  induction ws with
  | nil => exact absurd rfl hne
  | cons w ws ih =>
    rcases ws with _ | ⟨w2, ws2⟩
    · exact splitSpaces_no_space w (hsp w (by simp))
    · have hw : ' ' ∉ w := hsp w (by simp)
      show splitSpaces (w ++ ' ' :: joinSpaceSep (w2 :: ws2)) = w :: w2 :: ws2
      rw [splitSpaces_word_space _ _ hw]
      rw [ih (by simp) (fun x hx => hsp x (by simp [hx]))]

theorem joinSpaceSep_ne_nil (ws : List (List Char)) (hne : ws ≠ [])
    (hw : ∀ w ∈ ws, w ≠ []) : joinSpaceSep ws ≠ [] := by
  rcases ws with _ | ⟨w, ws⟩
  · exact absurd rfl hne
  · rcases ws with _ | ⟨w2, ws2⟩
    · exact hw w (by simp)
    · show w ++ ' ' :: joinSpaceSep (w2 :: ws2) ≠ []
      simp

theorem parseDecimals?_natDecimal (ns : List Nat) :
    parseDecimals? (ns.map natDecimal) = some ns := by
  induction ns with
  | nil => rfl
  | cons n ns ih =>
    show parseDecimals? (natDecimal n :: ns.map natDecimal) = some (n :: ns)
    unfold parseDecimals?
    rw [parseDecimal?_natDecimal n, ih]

/-- Decoding the canonical rendering of a size list gives back the sizes. -/
theorem decode_canonical (ns : List Nat) :
    decodeTreeSizesLine? ("tree_sizes=".data ++ joinSpaceSep (ns.map natDecimal) ++ ['\n'])
      = some ns := by
  unfold decodeTreeSizesLine?
  rw [if_pos ?side]
  case side =>
    constructor
    · rw [List.isPrefixOf_iff_prefix, List.append_assoc]
      exact List.prefix_append _ _
    · exact List.getLast?_concat _
  rw [show ("tree_sizes=".data ++ joinSpaceSep (ns.map natDecimal) ++ ['\n']).drop
        ("tree_sizes=".data).length = joinSpaceSep (ns.map natDecimal) ++ ['\n'] by
      rw [List.append_assoc]; exact List.drop_left _ _]
  rw [List.dropLast_concat]
  rcases ns with _ | ⟨n, ns⟩
  · rfl
  · have hne : joinSpaceSep ((n :: ns).map natDecimal) ≠ [] := by
      refine joinSpaceSep_ne_nil _ (by simp) ?_
      intro w hw
      rcases List.mem_map.mp hw with ⟨x, _, rfl⟩
      exact natDecimal_ne_nil x
    rw [if_neg hne]
    rw [splitSpaces_joinSpaceSep]
    · exact parseDecimals?_natDecimal _
    · simp
    · intro w hw
      rcases List.mem_map.mp hw with ⟨x, _, rfl⟩
      exact natDecimal_no_space x

/-- Decoding `gen_tree_sizes_line` yields exactly the tree block sizes. -/
theorem decode_gen_tree_sizes (m : ModelBlocks) :
    decodeTreeSizesLine? (gen_tree_sizes_line m) = some (m.tree_blocks.map tree_size) := by
  unfold gen_tree_sizes_line
  rw [show m.tree_blocks.map (fun b => natDecimal (tree_size b))
        = (m.tree_blocks.map tree_size).map natDecimal by rw [List.map_map]; rfl]
  exact decode_canonical _

/-! ### Lemmas about the block parser -/

theorem parseStep_content (blocks : List Block) (blk : Block) (a : Bool) (l : Line) :
    (parseStep (blocks, blk, a) l).1.flatten ++ (parseStep (blocks, blk, a) l).2.1
      = blocks.flatten ++ blk ++ [l] := by
  unfold parseStep
  split
  · simp
  · split
    · simp
    · split
      · rename_i hemp
        simp only at hemp
        rw [List.isEmpty_iff] at hemp
        simp [hemp]
      · simp [List.flatten_append]

theorem foldl_parseStep_content (lines : List Line) :
    ∀ (blocks : List Block) (blk : Block) (a : Bool),
      (lines.foldl parseStep (blocks, blk, a)).1.flatten
          ++ (lines.foldl parseStep (blocks, blk, a)).2.1
        = blocks.flatten ++ blk ++ lines := by
  induction lines with
  | nil => intro blocks blk a; simp
  | cons l ls ih =>
    intro blocks blk a
    rw [List.foldl_cons]
    rcases hps : parseStep (blocks, blk, a) l with ⟨b2, k2, a2⟩
    have hcontent := parseStep_content blocks blk a l
    rw [hps] at hcontent
    simp only at hcontent
    rw [ih b2 k2 a2, hcontent]
    simp

/-- The parse is lossless: concatenating the blocks gives back the lines. -/
theorem parse_file_blocks_flatten (lines : List Line) :
    (parse_file_blocks lines).flatten = lines := by
  unfold parse_file_blocks
  rcases hf : lines.foldl parseStep ([], [], false) with ⟨blocks, blk, a⟩
  have hcontent := foldl_parseStep_content lines [] [] false
  rw [hf] at hcontent
  simp only at hcontent
  simp only []
  split
  · rename_i hemp
    rw [List.isEmpty_iff] at hemp
    subst hemp
    simpa using hcontent
  · rw [List.flatten_append]
    simpa using hcontent

theorem foldl_parseStep_blocks_ne_nil (lines : List Line) :
    ∀ (blocks : List Block) (blk : Block) (a : Bool),
      (∀ b ∈ blocks, b ≠ []) →
      ∀ b ∈ (lines.foldl parseStep (blocks, blk, a)).1, b ≠ [] := by
  induction lines with
  | nil => intro blocks blk a h; simpa using h
  | cons l ls ih =>
    intro blocks blk a h
    rw [List.foldl_cons]
    rcases hps : parseStep (blocks, blk, a) l with ⟨b2, k2, a2⟩
    refine ih b2 k2 a2 ?_
    unfold parseStep at hps
    split at hps
    · injection hps with h1 _; subst h1; exact h
    · split at hps
      · injection hps with h1 _; subst h1; exact h
      · split at hps
        · injection hps with h1 _; subst h1; exact h
        · rename_i hemp
          injection hps with h1 _
          subst h1
          intro b hb
          rcases List.mem_append.mp hb with hb1 | hb1
          · exact h b hb1
          · rcases List.mem_singleton.mp hb1 with rfl
            intro hnil
            rw [hnil] at hemp
            simp at hemp

/-- Every block produced by the parser is non-empty. -/
theorem parse_file_blocks_ne_nil (lines : List Line) :
    ∀ b ∈ parse_file_blocks lines, b ≠ [] := by
  unfold parse_file_blocks
  rcases hf : lines.foldl parseStep ([], [], false) with ⟨blocks, blk, a⟩
  have hblocks := foldl_parseStep_blocks_ne_nil lines [] [] false (by simp)
  rw [hf] at hblocks
  simp only at hblocks
  simp only []
  split
  · exact hblocks
  · rename_i hemp
    intro b hb
    rcases List.mem_append.mp hb with hb1 | hb1
    · exact hblocks b hb1
    · rcases List.mem_singleton.mp hb1 with rfl
      intro hnil
      rw [hnil] at hemp
      simp at hemp

/-- A non-empty file parses to at least one block. -/
theorem parse_file_blocks_ne_nil_of_lines_ne_nil (lines : List Line)
    (h : lines ≠ []) : parse_file_blocks lines ≠ [] := by
  intro hcon
  have := parse_file_blocks_flatten lines
  rw [hcon] at this
  exact h this.symm

theorem foldl_parseStep_nonblank (rest : List Line) :
    ∀ (blocks : List Block) (blk : Block), (∀ l ∈ rest, l ≠ ['\n']) →
      rest.foldl parseStep (blocks, blk, true) = (blocks, blk ++ rest, true) := by
  induction rest with
  | nil => intro blocks blk _; simp
  | cons l ls ih =>
    intro blocks blk h
    have hl : l ≠ ['\n'] := h l (by simp)
    rw [List.foldl_cons]
    have hstep : parseStep (blocks, blk, true) l = (blocks, blk ++ [l], true) := by
      unfold parseStep
      simp [hl]
    rw [hstep, ih blocks (blk ++ [l]) (fun x hx => h x (by simp [hx]))]
    simp

/-- Parsing a file that is a single non-blank run yields that run as the
only block. -/
theorem parse_file_blocks_run (run : List Line) (hne : run ≠ [])
    (hnb : ∀ l ∈ run, l ≠ ['\n']) : parse_file_blocks run = [run] := by
  rcases run with _ | ⟨r, rs⟩
  · exact absurd rfl hne
  · have hr : r ≠ ['\n'] := hnb r (by simp)
    unfold parse_file_blocks
    rw [List.foldl_cons]
    have hstep : parseStep ([], [], false) r = ([], [r], true) := by
      unfold parseStep; simp [hr]
    rw [hstep, foldl_parseStep_nonblank rs [] [r] (fun x hx => hnb x (by simp [hx]))]
    simp

/-- After consuming a file ending in a blank line, the loop is outside a
block and the pending accumulator is non-empty. -/
theorem foldl_parseStep_after_blank (pre : List Line) :
    ∃ blocks blk, (pre ++ [['\n']]).foldl parseStep ([], [], false) = (blocks, blk, false)
      ∧ blk ≠ [] := by
  rw [List.foldl_append]
  rcases hf : pre.foldl parseStep ([], [], false) with ⟨blocks, blk, a⟩
  refine ⟨blocks, blk ++ [['\n']], ?_, by simp⟩
  simp only [List.foldl_cons, List.foldl_nil]
  unfold parseStep
  simp

/-- An unterminated trailing non-blank run after a blank-terminated prefix
still comes out, as one extra final block equal to the run. -/
theorem parse_file_blocks_append_run (pre run : List Line) (hne : run ≠ [])
    (hnb : ∀ l ∈ run, l ≠ ['\n']) :
    parse_file_blocks (pre ++ [['\n']] ++ run)
      = parse_file_blocks (pre ++ [['\n']]) ++ [run] := by
  obtain ⟨blocks, blk, hf, hblk⟩ := foldl_parseStep_after_blank pre
  rcases run with _ | ⟨r, rs⟩
  · exact absurd rfl hne
  · have hr : r ≠ ['\n'] := hnb r (by simp)
    have hstep : parseStep (blocks, blk, false) r = (blocks ++ [blk], [r], true) := by
      unfold parseStep
      simp [hr, hblk]
    have hrun : parse_file_blocks (pre ++ [['\n']] ++ (r :: rs))
        = blocks ++ [blk] ++ [r :: rs] := by
      unfold parse_file_blocks
      rw [List.foldl_append, hf, List.foldl_cons, hstep,
        foldl_parseStep_nonblank rs (blocks ++ [blk]) [r]
          (fun x hx => hnb x (by simp [hx]))]
      simp
    have hpre : parse_file_blocks (pre ++ [['\n']]) = blocks ++ [blk] := by
      unfold parse_file_blocks
      rw [hf]
      simp [hblk]
    rw [hrun, hpre]

/-! ### Lemmas about block classification and model construction -/

theorem tree_not_sentinel {b : Block} (h : is_tree_block b = true) :
    isEndSentinel b = false := by
  rcases b with _ | ⟨l, rest⟩
  · rfl
  · have hpre : ("Tree=".data).isPrefixOf l = true := h
    by_contra hcon
    rw [Bool.not_eq_false] at hcon
    unfold isEndSentinel at hcon
    rw [Bool.and_eq_true, decide_eq_true_eq, decide_eq_true_eq] at hcon
    obtain ⟨_, hhead⟩ := hcon
    have hl : l = "end of trees\n".data := by simpa using hhead
    rw [hl] at hpre
    exact absurd hpre (by decide)

theorem find_end_append (xs : List Block) (e : Block) (ys : List Block)
    (hxs : ∀ x ∈ xs, isEndSentinel x = false) (he : isEndSentinel e = true) :
    find_end_of_trees_block (xs ++ e :: ys) = .ok xs.length := by
  induction xs with
  | nil =>
    show find_end_of_trees_block (e :: ys) = .ok 0
    unfold find_end_of_trees_block
    rw [he, if_pos rfl]
  | cons x xs ih =>
    have hx := hxs x (by simp)
    show find_end_of_trees_block (x :: (xs ++ e :: ys)) = .ok (xs.length + 1)
    unfold find_end_of_trees_block
    rw [hx, if_neg Bool.false_ne_true, ih (fun y hy => hxs y (by simp [hy]))]
    rfl

theorem find_end_ok_spec (bs : List Block) :
    ∀ k : Nat, find_end_of_trees_block bs = .ok k →
      (∃ b, bs[k]? = some b ∧ isEndSentinel b = true)
        ∧ ∀ j, j < k → ∀ b, bs[j]? = some b → isEndSentinel b = false := by
  induction bs with
  | nil => intro k h; cases h
  | cons b bs ih =>
    intro k h
    unfold find_end_of_trees_block at h
    by_cases hb : isEndSentinel b = true
    · rw [hb, if_pos rfl] at h
      injection h with hk
      subst hk
      exact ⟨⟨b, by simp, hb⟩, fun j hj => by omega⟩
    · rw [if_neg hb] at h
      rcases hf : find_end_of_trees_block bs with e | k2
      · rw [hf] at h; cases h
      · rw [hf] at h
        have hk : k = k2 + 1 := by
          have : Except.ok (ε := String) (k2 + 1) = .ok k := h
          injection this with h2
          omega
        subst hk
        obtain ⟨⟨bb, hbb, hsent⟩, hprev⟩ := ih k2 hf
        refine ⟨⟨bb, by simpa using hbb, hsent⟩, ?_⟩
        intro j hj bj hbj
        rcases j with _ | j
        · rw [List.getElem?_cons_zero] at hbj
          injection hbj with hbj2
          subst hbj2
          rw [Bool.not_eq_true] at hb
          exact hb
        · exact hprev j (by omega) bj (by simpa using hbj)

theorem find_end_error (bs : List Block) (h : ∀ b ∈ bs, isEndSentinel b = false) :
    find_end_of_trees_block bs
      = .error "Corrupt file: Coudln't find end of trees block!" := by
  induction bs with
  | nil => rfl
  | cons b bs ih =>
    unfold find_end_of_trees_block
    rw [h b (by simp), if_neg Bool.false_ne_true, ih (fun x hx => h x (by simp [hx]))]
    rfl

theorem mkModelBlocks_ok_inversion {lines : List Line} {m : ModelBlocks}
    (h : mkModelBlocks lines = .ok m) :
    ∃ hdr rest k, parse_file_blocks lines = hdr :: rest ∧
      find_end_of_trees_block (hdr :: rest) = .ok k ∧
      m = initModel (hdr :: rest) hdr k ∧
      lines.length = (yield_model_lines m).length := by
  unfold mkModelBlocks at h
  rcases hp : parse_file_blocks lines with _ | ⟨hdr, rest⟩
  · rw [hp] at h; cases h
  · rw [hp] at h
    dsimp only at h
    rcases hf : find_end_of_trees_block (hdr :: rest) with e | k
    · rw [hf] at h; cases h
    · rw [hf] at h
      dsimp only at h
      split at h
      · rename_i hlen
        injection h with hm
        subst hm
        exact ⟨hdr, rest, k, rfl, hf, rfl, hlen⟩
      · cases h

/-- A structurally valid parse loads successfully into the expected model,
and the file's lines are the concatenation of the three sections. -/
theorem mkModelBlocks_of_valid {lines : List Line} {hdr : Block} {trees ends : List Block}
    (hparse : parse_file_blocks lines = hdr :: (trees ++ ends))
    (hv : validStructure hdr trees ends = true) :
    mkModelBlocks lines = .ok ⟨hdr, trees, ends, trees.length⟩
      ∧ lines = hdr ++ trees.flatten ++ ends.flatten := by
  unfold validStructure at hv
  rw [Bool.and_eq_true, Bool.and_eq_true, Bool.and_eq_true, Bool.and_eq_true] at hv
  obtain ⟨⟨⟨⟨h1, h2⟩, h3⟩, h4⟩, h5⟩ := hv
  rw [Bool.not_eq_true'] at h1 h2
  rw [List.all_eq_true] at h3 h5
  obtain ⟨e, es, rfl⟩ : ∃ e es, ends = e :: es := by
    rcases ends with _ | ⟨e, es⟩
    · cases h4
    · exact ⟨e, es, rfl⟩
  have hsent : isEndSentinel e = true := h4
  have hlines : lines = hdr ++ trees.flatten ++ (e :: es).flatten := by
    have hfl := parse_file_blocks_flatten lines
    rw [hparse] at hfl
    rw [← hfl]
    simp [List.flatten_append]
  have hfilter : (hdr :: (trees ++ e :: es)).filter is_tree_block = trees := by
    rw [List.filter_cons, h1, if_neg Bool.false_ne_true, List.filter_append]
    have hta : trees.filter is_tree_block = trees := List.filter_eq_self.mpr h3
    have hte : (e :: es).filter is_tree_block = [] := by
      rw [List.filter_eq_nil_iff]
      intro b hb
      have := h5 b hb
      rw [Bool.not_eq_true'] at this
      rw [this]
      exact Bool.false_ne_true
    rw [hta, hte, List.append_nil]
  have hfind : find_end_of_trees_block (hdr :: (trees ++ e :: es))
      = .ok (trees.length + 1) := by
    have haux := find_end_append (hdr :: trees) e es ?side hsent
    case side =>
      intro x hx
      rcases List.mem_cons.mp hx with rfl | hx1
      · exact h2
      · exact tree_not_sentinel (h3 x hx1)
    rw [List.cons_append] at haux
    simpa using haux
  have hdrop : (hdr :: (trees ++ e :: es)).drop (trees.length + 1) = e :: es := by
    rw [List.drop_succ_cons]
    exact List.drop_left _ _
  have hinit : initModel (hdr :: (trees ++ e :: es)) hdr (trees.length + 1)
      = ⟨hdr, trees, e :: es, trees.length⟩ := by
    unfold initModel
    rw [hfilter, hdrop]
  have hyield_len :
      lines.length
        = (yield_model_lines ⟨hdr, trees, e :: es, trees.length⟩).length := by
    unfold yield_model_lines
    rw [hlines]
    simp [List.flatten_append]
  unfold mkModelBlocks
  rw [hparse]
  dsimp only
  rw [hfind]
  dsimp only
  rw [hinit, if_pos hyield_len]
  exact ⟨rfl, hlines⟩

/-! ### Lemmas about tree duplication -/

theorem add_sampled_tree_ok {m : ModelBlocks} {g : Nat} {m2 : ModelBlocks} {idx : Nat}
    (h : add_sampled_tree m g = .ok (m2, idx)) :
    1 ≤ idx ∧ idx < m.N_ORIGINAL_TREES ∧
    ∃ h0 tl, m.tree_blocks[idx]? = some (h0 :: tl) ∧
      m2 = { m with tree_blocks :=
        m.tree_blocks ++ [("Tree=".data ++ natDecimal m.tree_blocks.length ++ ['\n']) :: tl] } := by
  unfold add_sampled_tree randrange at h
  by_cases hlt : 1 < m.N_ORIGINAL_TREES
  · rw [if_pos hlt] at h
    dsimp only at h
    rcases hget : m.tree_blocks[1 + g % (m.N_ORIGINAL_TREES - 1)]? with _ | sampled
    · rw [hget] at h; cases h
    · rw [hget] at h
      rcases sampled with _ | ⟨h0, tl⟩
      · cases h
      · dsimp only at h
        rw [Except.ok.injEq, Prod.mk.injEq] at h
        obtain ⟨hm, hidx⟩ := h
        subst hidx
        have hmod : g % (m.N_ORIGINAL_TREES - 1) < m.N_ORIGINAL_TREES - 1 :=
          Nat.mod_lt _ (by omega)
        exact ⟨by omega, by omega, h0, tl, hget, hm.symm⟩
  · rw [if_neg hlt] at h
    cases h

theorem add_sampled_tree_empty_range {m : ModelBlocks} (g : Nat)
    (h : ¬ 1 < m.N_ORIGINAL_TREES) :
    add_sampled_tree m g = .error "ValueError: empty range for randrange()" := by
  unfold add_sampled_tree randrange
  rw [if_neg h]

theorem add_sampled_trees_ok {gs : List Nat} :
    ∀ {m m2 : ModelBlocks} {idxs : List Nat},
      add_sampled_trees m gs = .ok (m2, idxs) →
      m2.header_block = m.header_block ∧
      m2.end_blocks = m.end_blocks ∧
      m2.N_ORIGINAL_TREES = m.N_ORIGINAL_TREES ∧
      m2.tree_blocks.length = m.tree_blocks.length + gs.length ∧
      m2.tree_blocks.take m.tree_blocks.length = m.tree_blocks ∧
      idxs.length = gs.length ∧
      (∀ i ∈ idxs, 1 ≤ i ∧ i < m.N_ORIGINAL_TREES) ∧
      (∀ j, m.tree_blocks.length ≤ j → j < m2.tree_blocks.length →
        ∃ tl, m2.tree_blocks[j]? = some (("Tree=".data ++ natDecimal j ++ ['\n']) :: tl)) := by
  induction gs with
  | nil =>
    intro m m2 idxs h
    unfold add_sampled_trees at h
    rw [Except.ok.injEq, Prod.mk.injEq] at h
    obtain ⟨rfl, rfl⟩ := h
    refine ⟨rfl, rfl, rfl, by simp, List.take_length _, rfl, by simp, ?_⟩
    intro j hj1 hj2
    omega
  | cons g gs ih =>
    intro m m2 idxs h
    unfold add_sampled_trees at h
    rcases h1 : add_sampled_tree m g with e | ⟨m1, idx⟩
    · rw [h1] at h; cases h
    · rw [h1] at h
      dsimp only at h
      rcases h2 : add_sampled_trees m1 gs with e | ⟨m3, idxs3⟩
      · rw [h2] at h; cases h
      · rw [h2] at h
        dsimp only at h
        rw [Except.ok.injEq, Prod.mk.injEq] at h
        obtain ⟨rfl, rfl⟩ := h
        obtain ⟨hb1, hb2, h0, tl, hget, rfl⟩ := add_sampled_tree_ok h1
        obtain ⟨ih1, ih2, ih3, ih4, ih5, ih6, ih7, ih8⟩ := ih h2
        dsimp only at ih1 ih2 ih3 ih4 ih5 ih7 ih8
        have hlen1 :
            (m.tree_blocks
              ++ [("Tree=".data ++ natDecimal m.tree_blocks.length ++ ['\n']) :: tl]).length
              = m.tree_blocks.length + 1 := by simp
        rw [hlen1] at ih4 ih5 ih8
        refine ⟨ih1, ih2, ih3, by simp only [List.length_cons]; omega, ?_, ?_, ?_, ?_⟩
        · have hmin :
              m3.tree_blocks.take m.tree_blocks.length
                = (m3.tree_blocks.take (m.tree_blocks.length + 1)).take
                    m.tree_blocks.length := by
            rw [List.take_take, min_eq_left (by omega)]
          rw [hmin, ih5]
          exact List.take_left _ _
        · simp [ih6]
        · intro i hi
          rcases List.mem_cons.mp hi with rfl | hi1
          · exact ⟨hb1, hb2⟩
          · exact ih7 i hi1
        · intro j hj1 hj2
          rcases Nat.lt_or_ge j (m.tree_blocks.length + 1) with hcase | hcase
          · have hjeq : j = m.tree_blocks.length := by omega
            subst hjeq
            have htake : m3.tree_blocks[m.tree_blocks.length]?
                = (m3.tree_blocks.take (m.tree_blocks.length + 1))[m.tree_blocks.length]? := by
              rw [List.getElem?_take, if_pos (by omega)]
            rw [htake, ih5]
            exact ⟨tl, List.getElem?_concat_length _ _⟩
          · exact ih8 j (by omega) hj2

/-! ### The claims -/

/-- C6: the block parser partitions any input losslessly — concatenating the
blocks in order gives back exactly the file's line sequence, an empty file
yields zero blocks, a non-empty file yields at least one block, every block
is non-empty, and an unterminated trailing non-blank run still comes out as
a final block. -/
theorem claim_c6 (lines pre run : List Line) :
    (parse_file_blocks lines).flatten = lines ∧
    parse_file_blocks ([] : List Line) = [] ∧
    (lines ≠ [] → parse_file_blocks lines ≠ []) ∧
    (∀ b ∈ parse_file_blocks lines, b ≠ []) ∧
    (run ≠ [] → (∀ l ∈ run, l ≠ ['\n']) →
      parse_file_blocks (pre ++ [['\n']] ++ run)
          = parse_file_blocks (pre ++ [['\n']]) ++ [run] ∧
        parse_file_blocks run = [run]) :=
  ⟨parse_file_blocks_flatten lines, rfl,
   parse_file_blocks_ne_nil_of_lines_ne_nil lines,
   parse_file_blocks_ne_nil lines,
   fun h1 h2 => ⟨parse_file_blocks_append_run pre run h1 h2,
     parse_file_blocks_run run h1 h2⟩⟩

theorem claim_c6_witness :
    parse_file_blocks ([['a']] ++ [['\n']] ++ [['b']])
        = parse_file_blocks ([['a']] ++ [['\n']]) ++ [[['b']]] ∧
      parse_file_blocks [['b']] = [[['b']]] :=
  (claim_c6 [] [['a']] [['b']]).2.2.2.2 (by decide) (by decide)

/-- C2: after any sequence of duplications, the regenerated `tree_sizes=`
line is the literal prefix followed by the space-separated decimal entries,
one per tree block in order, each equal to the sum of the byte lengths of
that block's lines; the decoder confirms the entries denote exactly those
sizes. -/
theorem claim_c2 (m m2 : ModelBlocks) (gs idxs : List Nat)
    (_hadd : add_sampled_trees m gs = .ok (m2, idxs)) :
    ∃ sizes : List Nat,
      gen_tree_sizes_line m2
          = "tree_sizes=".data ++ joinSpaceSep (sizes.map natDecimal) ++ ['\n'] ∧
      decodeTreeSizesLine? (gen_tree_sizes_line m2) = some sizes ∧
      sizes.length = m2.tree_blocks.length ∧
      ∀ (i : Nat) (b : Block), m2.tree_blocks[i]? = some b →
        sizes[i]? = some ((b.map List.length).sum) := by
  refine ⟨m2.tree_blocks.map tree_size, ?_, decode_gen_tree_sizes m2, by simp, ?_⟩
  · unfold gen_tree_sizes_line
    rw [List.map_map]
    rfl
  · intro i b hb
    rw [List.getElem?_map, hb]
    rfl

theorem claim_c2_witness :
    ∃ sizes : List Nat,
      gen_tree_sizes_line exModel2
          = "tree_sizes=".data ++ joinSpaceSep (sizes.map natDecimal) ++ ['\n'] ∧
      decodeTreeSizesLine? (gen_tree_sizes_line exModel2) = some sizes ∧
      sizes.length = exModel2.tree_blocks.length ∧
      ∀ (i : Nat) (b : Block), exModel2.tree_blocks[i]? = some b →
        sizes[i]? = some ((b.map List.length).sum) :=
  claim_c2 exModel exModel2 [0] [1] (by rfl)

/-- C3: requesting `N` duplications appends exactly `N` tree blocks, the
pre-existing tree blocks are untouched, and every new block's first line
declares the index equal to its position, so the new indices are the
contiguous sequence starting at the pre-mutation tree count. -/
theorem claim_c3 (m m2 : ModelBlocks) (gs idxs : List Nat)
    (hadd : add_sampled_trees m gs = .ok (m2, idxs)) :
    m2.tree_blocks.length = m.tree_blocks.length + gs.length ∧
    m2.tree_blocks.take m.tree_blocks.length = m.tree_blocks ∧
    ∀ j, m.tree_blocks.length ≤ j → j < m2.tree_blocks.length →
      ∃ tl, m2.tree_blocks[j]?
          = some (("Tree=".data ++ natDecimal j ++ ['\n']) :: tl) := by
  obtain ⟨_, _, _, h4, h5, _, _, h8⟩ := add_sampled_trees_ok hadd
  exact ⟨h4, h5, h8⟩

theorem claim_c3_witness :
    exModel2.tree_blocks.length = exModel.tree_blocks.length + [0].length ∧
    exModel2.tree_blocks.take exModel.tree_blocks.length = exModel.tree_blocks ∧
    ∀ j, exModel.tree_blocks.length ≤ j → j < exModel2.tree_blocks.length →
      ∃ tl, exModel2.tree_blocks[j]?
          = some (("Tree=".data ++ natDecimal j ++ ['\n']) :: tl) :=
  claim_c3 exModel exModel2 [0] [1] (by rfl)

/-- C4: every sampled source index lies in `[1, N_ORIGINAL_TREES)` of the
starting model, duplication never changes `N_ORIGINAL_TREES` (so the bound
is the load-time tree count however many duplications precede), and with
exactly one original tree the operation fails with the empty-range error
instead of duplicating tree 0. -/
theorem claim_c4 (m m2 : ModelBlocks) (gs idxs : List Nat)
    (hadd : add_sampled_trees m gs = .ok (m2, idxs)) :
    (∀ i ∈ idxs, 1 ≤ i ∧ i < m.N_ORIGINAL_TREES) ∧
    m2.N_ORIGINAL_TREES = m.N_ORIGINAL_TREES ∧
    (m.N_ORIGINAL_TREES = 1 → ∀ g,
      add_sampled_tree m g = .error "ValueError: empty range for randrange()") := by
  obtain ⟨_, _, h3, _, _, _, h7, _⟩ := add_sampled_trees_ok hadd
  exact ⟨h7, h3, fun h1 g => add_sampled_tree_empty_range g (by omega)⟩

theorem claim_c4_witness :
    (∀ i ∈ [1], 1 ≤ i ∧ i < exModel.N_ORIGINAL_TREES) ∧
    exModel2.N_ORIGINAL_TREES = exModel.N_ORIGINAL_TREES ∧
    (exModel.N_ORIGINAL_TREES = 1 → ∀ g,
      add_sampled_tree exModel g
        = .error "ValueError: empty range for randrange()") :=
  claim_c4 exModel exModel2 [0] [1] (by rfl)

/-- C8: one duplication copies the sampled tree block, rewriting only its
first line (the tail of the new block is the tail of the source block), and
leaves the header, all existing tree blocks and the trailer unchanged. -/
theorem claim_c8 (m m2 : ModelBlocks) (g idx : Nat)
    (hadd : add_sampled_tree m g = .ok (m2, idx)) :
    ∃ h0 tl, m.tree_blocks[idx]? = some (h0 :: tl) ∧
      m2.tree_blocks = m.tree_blocks
        ++ [("Tree=".data ++ natDecimal m.tree_blocks.length ++ ['\n']) :: tl] ∧
      m2.header_block = m.header_block ∧
      m2.end_blocks = m.end_blocks ∧
      m2.N_ORIGINAL_TREES = m.N_ORIGINAL_TREES := by
  obtain ⟨_, _, h0, tl, hget, rfl⟩ := add_sampled_tree_ok hadd
  exact ⟨h0, tl, hget, rfl, rfl, rfl, rfl⟩

theorem claim_c8_witness :
    ∃ h0 tl, exModel.tree_blocks[1]? = some (h0 :: tl) ∧
      exModel2.tree_blocks = exModel.tree_blocks
        ++ [("Tree=".data ++ natDecimal exModel.tree_blocks.length ++ ['\n']) :: tl] ∧
      exModel2.header_block = exModel.header_block ∧
      exModel2.end_blocks = exModel.end_blocks ∧
      exModel2.N_ORIGINAL_TREES = exModel.N_ORIGINAL_TREES :=
  claim_c8 exModel exModel2 0 1 (by rfl)

/-- C9: once the file parses to a non-empty block list with an end-of-trees
block, construction succeeds and returns exactly the freshly parsed state if
and only if the regenerated serialization has as many lines as the input;
otherwise it fails with the self-consistency error. -/
theorem claim_c9 (lines : List Line) (hdr : Block) (rest : List Block) (k : Nat)
    (hparse : parse_file_blocks lines = hdr :: rest)
    (hfind : find_end_of_trees_block (hdr :: rest) = .ok k) :
    (lines.length = (yield_model_lines (initModel (hdr :: rest) hdr k)).length →
      mkModelBlocks lines = .ok (initModel (hdr :: rest) hdr k)) ∧
    (lines.length ≠ (yield_model_lines (initModel (hdr :: rest) hdr k)).length →
      mkModelBlocks lines
        = .error "Bug detected: Output self-consistency checks failed!") := by
  constructor
  · intro hlen
    unfold mkModelBlocks
    rw [hparse]
    dsimp only
    rw [hfind]
    dsimp only
    rw [if_pos hlen]
  · intro hlen
    unfold mkModelBlocks
    rw [hparse]
    dsimp only
    rw [hfind]
    dsimp only
    rw [if_neg hlen]

theorem claim_c9_witness :
    (exLines.length
        = (yield_model_lines
            (initModel (exHeader :: (exTrees ++ exEnds)) exHeader 3)).length →
      mkModelBlocks exLines
        = .ok (initModel (exHeader :: (exTrees ++ exEnds)) exHeader 3)) ∧
    (exLines.length
        ≠ (yield_model_lines
            (initModel (exHeader :: (exTrees ++ exEnds)) exHeader 3)).length →
      mkModelBlocks exLines
        = .error "Bug detected: Output self-consistency checks failed!") :=
  claim_c9 exLines exHeader (exTrees ++ exEnds) 3 (by rfl) (by rfl)

/-- C5: loading fails when the parse has zero blocks, and when no parsed
block is a two-line `end of trees` sentinel; in both cases the whole run
(`grow_model`) errors, so nothing is mutated or written. When loading
succeeds, the trailer is exactly the blocks from the first sentinel block to
the end of the file. -/
theorem claim_c5 (lines : List Line) (gs : List Nat) :
    (parse_file_blocks lines = [] →
      mkModelBlocks lines = .error "IndexError: list index out of range" ∧
      grow_model lines gs = .error "IndexError: list index out of range") ∧
    ((∀ b ∈ parse_file_blocks lines, isEndSentinel b = false) →
      parse_file_blocks lines ≠ [] →
      mkModelBlocks lines
          = .error "Corrupt file: Coudln't find end of trees block!" ∧
        grow_model lines gs
          = .error "Corrupt file: Coudln't find end of trees block!") ∧
    (∀ m : ModelBlocks, mkModelBlocks lines = .ok m →
      ∃ k, (∃ b, (parse_file_blocks lines)[k]? = some b ∧ isEndSentinel b = true) ∧
        (∀ j, j < k → ∀ b, (parse_file_blocks lines)[j]? = some b →
          isEndSentinel b = false) ∧
        m.end_blocks = (parse_file_blocks lines).drop k) := by
  refine ⟨?_, ?_, ?_⟩
  · intro hp
    have hmk : mkModelBlocks lines = .error "IndexError: list index out of range" := by
      unfold mkModelBlocks
      rw [hp]
    refine ⟨hmk, ?_⟩
    unfold grow_model
    rw [hmk]
  · intro hsent hne
    rcases hp : parse_file_blocks lines with _ | ⟨hdr, rest⟩
    · exact absurd hp hne
    · have hfind := find_end_error (hdr :: rest) (by rw [← hp]; exact hsent)
      have hmk : mkModelBlocks lines
          = .error "Corrupt file: Coudln't find end of trees block!" := by
        unfold mkModelBlocks
        rw [hp]
        dsimp only
        rw [hfind]
      refine ⟨hmk, ?_⟩
      unfold grow_model
      rw [hmk]
  · intro m hm
    obtain ⟨hdr, rest, k, hp, hfind, hminit, _⟩ := mkModelBlocks_ok_inversion hm
    obtain ⟨hex, hprev⟩ := find_end_ok_spec (hdr :: rest) k hfind
    refine ⟨k, by rw [hp]; exact hex, by rw [hp]; exact hprev, ?_⟩
    rw [hp, hminit]
    rfl

theorem claim_c5_witness :
    mkModelBlocks [['a']]
        = .error "Corrupt file: Coudln't find end of trees block!" ∧
      grow_model [['a']] []
        = .error "Corrupt file: Coudln't find end of trees block!" :=
  (claim_c5 [['a']] []).2.1 (by decide) (by decide)

/-- C10: every header line that begins with `tree_sizes=` — not only the
first — is replaced in the serialized output, at its own position, by the
same recomputed `tree_sizes=` line. -/
theorem claim_c10 (m : ModelBlocks) (i : Nat) (l : Line)
    (hl : m.header_block[i]? = some l)
    (hpre : ("tree_sizes=".data).isPrefixOf l = true) :
    (yield_model_lines m)[i]? = some (gen_tree_sizes_line m) := by
  have hi : i < m.header_block.length := by
    rcases List.getElem?_eq_some.mp hl with ⟨h, _⟩
    exact h
  unfold yield_model_lines
  rw [List.getElem?_append, if_pos (by simpa using hi)]
  rw [List.getElem?_map, hl, Option.map_some', hpre, if_pos rfl]

theorem claim_c10_witness :
    (yield_model_lines dupModel)[0]? = some (gen_tree_sizes_line dupModel) ∧
    (yield_model_lines dupModel)[1]? = some (gen_tree_sizes_line dupModel) :=
  ⟨claim_c10 dupModel 0 ("tree_sizes=1\n".data) (by rfl) (by decide),
   claim_c10 dupModel 1 ("tree_sizes=2\n".data) (by rfl) (by decide)⟩

/-- C7: for a loaded model and any number of duplications, the trailer
blocks pass to the output verbatim (the input ends with their lines and the
output ends with the same lines), and every header line that does not begin
with `tree_sizes=` appears unchanged at its original position in the
output. -/
theorem claim_c7 (lines : List Line) (gs idxs : List Nat) (m0 m2 : ModelBlocks)
    (hmk : mkModelBlocks lines = .ok m0)
    (hadd : add_sampled_trees m0 gs = .ok (m2, idxs)) :
    m2.end_blocks = m0.end_blocks ∧
    m2.header_block = m0.header_block ∧
    (∃ pre, lines = pre ++ m0.end_blocks.flatten) ∧
    (∃ pre2, yield_model_lines m2 = pre2 ++ m0.end_blocks.flatten) ∧
    (∀ (i : Nat) (l : Line), i < m0.header_block.length → lines[i]? = some l →
      ("tree_sizes=".data).isPrefixOf l = false →
      (yield_model_lines m2)[i]? = some l) := by
  obtain ⟨hdr, rest, k, hp, hfind, hminit, hlen⟩ := mkModelBlocks_ok_inversion hmk
  obtain ⟨a1, a2, _, _, _, _, _, _⟩ := add_sampled_trees_ok hadd
  have hflat := parse_file_blocks_flatten lines
  rw [hp] at hflat
  have hm0hdr : m0.header_block = hdr := by rw [hminit]; rfl
  have hm0end : m0.end_blocks = (hdr :: rest).drop k := by rw [hminit]; rfl
  refine ⟨a2, a1, ?_, ?_, ?_⟩
  · refine ⟨((hdr :: rest).take k).flatten, ?_⟩
    rw [hm0end, ← List.flatten_append, List.take_append_drop, hflat]
  · refine ⟨(m2.header_block.map (fun line =>
        if ("tree_sizes=".data).isPrefixOf line then gen_tree_sizes_line m2 else line))
        ++ m2.tree_blocks.flatten, ?_⟩
    unfold yield_model_lines
    rw [List.flatten_append, a2, hm0end, List.append_assoc]
  · intro i l hi hline hnpre
    rw [hm0hdr] at hi
    have hlines2 : lines = hdr ++ rest.flatten := by
      rw [← hflat]
      rfl
    rw [hlines2, List.getElem?_append, if_pos hi] at hline
    unfold yield_model_lines
    rw [List.getElem?_append, if_pos (by rw [List.length_map, a1, hm0hdr]; exact hi)]
    rw [a1, hm0hdr, List.getElem?_map, hline, Option.map_some', hnpre,
      if_neg Bool.false_ne_true]

theorem claim_c7_witness :
    exModel2.end_blocks = exModel.end_blocks ∧
    exModel2.header_block = exModel.header_block ∧
    (∃ pre, exLines = pre ++ exModel.end_blocks.flatten) ∧
    (∃ pre2, yield_model_lines exModel2 = pre2 ++ exModel.end_blocks.flatten) ∧
    (∀ (i : Nat) (l : Line), i < exModel.header_block.length →
      exLines[i]? = some l →
      ("tree_sizes=".data).isPrefixOf l = false →
      (yield_model_lines exModel2)[i]? = some l) :=
  claim_c7 exLines [0] [1] exModel exModel2 (by rfl) (by rfl)

/-- C1, counterexample: `cexLines` is non-empty and contains the sentinel
block, loading succeeds, no trees are added, yet the serialized first line
denotes the size list `[]` while the input's first line denotes `[7]` — the
`tree_sizes=` line is semantically changed, refuting the claim for files
that are merely non-empty and sentinel-carrying. -/
theorem claim_c1_counterexample :
    cexLines ≠ [] ∧
    (∃ b ∈ parse_file_blocks cexLines, isEndSentinel b = true) ∧
    mkModelBlocks cexLines = .ok cexModel ∧
    add_sampled_trees cexModel [] = .ok (cexModel, []) ∧
    cexLines[0]? = some ("tree_sizes=7\n".data) ∧
    (yield_model_lines cexModel)[0]? = some ("tree_sizes=\n".data) ∧
    decodeTreeSizesLine? ("tree_sizes=7\n".data) = some [7] ∧
    decodeTreeSizesLine? ("tree_sizes=\n".data) = some [] ∧
    some ([] : List Nat) ≠ some [7] :=
  ⟨by decide, by decide, rfl, rfl, rfl, rfl, rfl, rfl, by decide⟩

/-- C1, amended: for a structurally valid model file — header that is
neither tree nor sentinel and holds exactly one `tree_sizes=` line, then
tree blocks, then the sentinel and non-tree trailer blocks — whose
`tree_sizes=` line denotes exactly the byte sizes of the tree blocks,
loading succeeds and serializing with zero duplications reproduces every
line except possibly the `tree_sizes=` line, which again denotes exactly
those sizes. -/
theorem claim_c1_amended (lines : List Line) (hdr : Block) (trees ends : List Block)
    (j : Nat)
    (hparse : parse_file_blocks lines = hdr :: (trees ++ ends))
    (hvalid : validStructure hdr trees ends = true)
    (hj : j < hdr.length)
    (huniq : ∀ i, i < hdr.length →
      ((("tree_sizes=".data).isPrefixOf (hdr.getD i [])) = true ↔ i = j))
    (hsem : decodeTreeSizesLine? (hdr.getD j []) = some (trees.map tree_size)) :
    ∃ m, mkModelBlocks lines = .ok m ∧
      add_sampled_trees m [] = .ok (m, []) ∧
      (yield_model_lines m).length = lines.length ∧
      (∀ i, i ≠ j → (yield_model_lines m)[i]? = lines[i]?) ∧
      (∃ lin lout, lines[j]? = some lin ∧ (yield_model_lines m)[j]? = some lout ∧
        decodeTreeSizesLine? lout = decodeTreeSizesLine? lin ∧
        decodeTreeSizesLine? lout = some (trees.map tree_size)) := by
  obtain ⟨hmk, hlines⟩ := mkModelBlocks_of_valid hparse hvalid
  have hyield : yield_model_lines ⟨hdr, trees, ends, trees.length⟩
      = hdr.map (fun line =>
          if ("tree_sizes=".data).isPrefixOf line
          then gen_tree_sizes_line ⟨hdr, trees, ends, trees.length⟩ else line)
        ++ (trees.flatten ++ ends.flatten) := by
    unfold yield_model_lines
    rw [List.flatten_append]
  have hlines2 : lines = hdr ++ (trees.flatten ++ ends.flatten) := by
    rw [hlines, List.append_assoc]
  refine ⟨⟨hdr, trees, ends, trees.length⟩, hmk, rfl, ?_, ?_, ?_⟩
  · rw [hyield, hlines2]
    simp
  · intro i hij
    rw [hyield, hlines2]
    by_cases hi : i < hdr.length
    · rw [List.getElem?_append, if_pos (by simpa using hi),
        List.getElem?_append, if_pos hi]
      rw [List.getElem?_map, List.getElem?_eq_getElem hi, Option.map_some']
      have hval : hdr.getD i [] = hdr.get ⟨i, hi⟩ := by
        rw [List.getD_eq_getElem?_getD, List.getElem?_eq_getElem hi]
        rfl
      have hnpre : (("tree_sizes=".data).isPrefixOf (hdr.get ⟨i, hi⟩)) = false := by
        rw [← hval]
        rcases hb : ("tree_sizes=".data).isPrefixOf (hdr.getD i []) with _ | _
        · rfl
        · exact absurd ((huniq i hi).mp hb) hij
      rw [show hdr[i] = hdr.get ⟨i, hi⟩ from rfl, hnpre, if_neg Bool.false_ne_true]
    · rw [List.getElem?_append_right (by simpa using Nat.le_of_not_lt hi),
        List.getElem?_append_right (Nat.le_of_not_lt hi), List.length_map]
  · have hval : hdr.getD j [] = hdr.get ⟨j, hj⟩ := by
      rw [List.getD_eq_getElem?_getD, List.getElem?_eq_getElem hj]
      rfl
    refine ⟨hdr.get ⟨j, hj⟩, gen_tree_sizes_line ⟨hdr, trees, ends, trees.length⟩,
      ?_, ?_, ?_, ?_⟩
    · rw [hlines2, List.getElem?_append, if_pos hj, List.getElem?_eq_getElem hj]
      rfl
    · rw [hyield, List.getElem?_append, if_pos (by simpa using hj),
        List.getElem?_map, List.getElem?_eq_getElem hj, Option.map_some']
      have hpre : (("tree_sizes=".data).isPrefixOf (hdr.get ⟨j, hj⟩)) = true := by
        rw [← hval]
        exact (huniq j hj).mpr rfl
      rw [show hdr[j] = hdr.get ⟨j, hj⟩ from rfl, hpre, if_pos rfl]
    · rw [decode_gen_tree_sizes, ← hval, hsem]
    · rw [decode_gen_tree_sizes]

theorem claim_c1_amended_witness :
    ∃ m, mkModelBlocks exLines = .ok m ∧
      add_sampled_trees m [] = .ok (m, []) ∧
      (yield_model_lines m).length = exLines.length ∧
      (∀ i, i ≠ 0 → (yield_model_lines m)[i]? = exLines[i]?) ∧
      (∃ lin lout, exLines[0]? = some lin ∧ (yield_model_lines m)[0]? = some lout ∧
        decodeTreeSizesLine? lout = decodeTreeSizesLine? lin ∧
        decodeTreeSizesLine? lout = some (exTrees.map tree_size)) :=
  claim_c1_amended exLines exHeader exTrees exEnds 0 (by rfl) (by decide)
    (by decide) (by decide) (by decide)

end ExtendModel
